import Mathlib

/-!
# OwlWhisper core: shallow embedding and verification

The repository exposes only the C header `src/internal/core/owlwhisper.h`,
which declares the foreign-function surface of a peer-to-peer messaging
engine (identity management, protected peers, auto-reconnect, DHT routing
table, messaging with history, and a single event channel).  The
implementation behind the header is not part of the visible sources, so the
definitions below are modelled from the specification of the core, faithful
to its words, and the claims are settled against this model.

Peer identifiers, key bytes and payloads are opaque tokens; we embed them
as natural numbers and lists of natural numbers (byte values).
-/

namespace OwlWhisper

/-- Opaque printable peer identifier token. -/
abbrev PeerID := Nat

/- ## Identity Manager (header: GenerateNewKeyPair, GetMyPeerID) -/

/-- Modelled from the spec: a cryptographic keypair, with the private key
owned exclusively by the Identity Manager.  Keys are byte sequences. -/
structure KeyPair where
  publicKey : List Nat
  privateKey : List Nat
deriving DecidableEq, Repr

/-- Modelled from the spec: the collision-resistant hash deriving the peer
identifier from the public key.  The implementation behind the header is
absent; we idealise the collision-resistant hash as an injective encoding
of the public-key bytes into a natural number (pairing-function fold). -/
def hashPubKey : List Nat → Nat
  | [] => 0
  | b :: bs => Nat.pair b (hashPubKey bs) + 1

/-- Modelled from the spec: `GetMyPeerID` returns the stable peer
identifier, a deterministic hash of the public key. -/
def GetMyPeerID (kp : KeyPair) : PeerID :=
  hashPubKey kp.publicKey

theorem hashPubKey_injective : Function.Injective hashPubKey := by
  intro l1 l2 h
  induction l1 generalizing l2 with
  | nil =>
    cases l2 with
    | nil => rfl
    | cons b bs => simp [hashPubKey] at h
  | cons a as ih =>
    cases l2 with
    | nil => simp [hashPubKey] at h
    | cons b bs =>
      simp only [hashPubKey, Nat.succ.injEq] at h
      have h2 := congrArg Nat.unpair h
      simp only [Nat.unpair_pair, Prod.mk.injEq] at h2
      rw [h2.1, ih h2.2]

/- ## Protected Peer Registry (header: AddProtectedPeer, RemoveProtectedPeer,
     IsProtectedPeer, GetProtectedPeers) -/

/-- Modelled from the spec: the protected set kept by the Protected Peer
Registry, as a duplicate-free list of peer identifiers. -/
abbrev ProtectedSet := List PeerID

/-- Modelled from the spec: `addProtected(P)` inserts `P` into the
protected set with single membership (adding an existing member is a
no-op). -/
def AddProtectedPeer (ps : ProtectedSet) (p : PeerID) : ProtectedSet :=
  if p ∈ ps then ps else ps ++ [p]

/-- Modelled from the spec: `removeProtected(P)` removes `P` from the
protected set; removing a non-member is a no-op, not an error.  The
boolean is the success result of the call (always success). -/
def RemoveProtectedPeer (ps : ProtectedSet) (p : PeerID) : Bool × ProtectedSet :=
  (true, ps.erase p)

/-- Modelled from the spec: `IsProtectedPeer(P)` reports membership of `P`
in the protected set. -/
def IsProtectedPeer (ps : ProtectedSet) (p : PeerID) : Bool :=
  decide (p ∈ ps)

/-- Modelled from the spec: `GetProtectedPeers` serialises the protected
set for the caller. -/
def GetProtectedPeers (ps : ProtectedSet) : List PeerID :=
  ps

/- ## DHT routing table and connection cache (header: GetDHTRoutingTableSize,
     AddProtectedPeer) -/

/-- Modelled from the spec: drop the least-recently-seen peer that is not
in the protected set from a bucket ordered least-recently-seen first;
`none` when every peer in the bucket is protected. -/
def dropFirstUnprotected (ps : ProtectedSet) : List PeerID → Option (List PeerID)
  | [] => none
  | q :: rest =>
    if q ∈ ps then (dropFirstUnprotected ps rest).map (fun l => q :: l)
    else some rest

/-- Modelled from the spec: inserting a peer into a capacity-bounded bucket
with least-recently-seen eviction on overflow, never evicting a peer
marked protected.  The bucket is ordered least-recently-seen first; a peer
already present is refreshed to most-recently-seen; on overflow the
least-recently-seen unprotected peer is evicted, and if every resident is
protected the new peer is not admitted. -/
def bucketInsert (ps : ProtectedSet) (cap : Nat) (peers : List PeerID) (p : PeerID) :
    List PeerID :=
  if p ∈ peers then peers.erase p ++ [p]
  else if peers.length < cap then peers ++ [p]
  else
    match dropFirstUnprotected ps peers with
    | some peers1 => peers1 ++ [p]
    | none => peers

/-- Modelled from the spec: insertion into the DHT routing table (a bucket
of the table, which indexes peers and never owns their lifecycle). -/
def routingTableInsert (ps : ProtectedSet) (cap : Nat) (peers : List PeerID)
    (p : PeerID) : List PeerID :=
  bucketInsert ps cap peers p

/-- Modelled from the spec: insertion into the connection cache, which is
bounded by the same capacity discipline with the same protected-peer
exemption. -/
def connectionCacheInsert (ps : ProtectedSet) (cap : Nat) (peers : List PeerID)
    (p : PeerID) : List PeerID :=
  bucketInsert ps cap peers p

/-- Modelled from the spec: explicit removal of a peer from a bucket (the
only way a protected peer leaves it). -/
def bucketRemove (peers : List PeerID) (p : PeerID) : List PeerID :=
  peers.erase p

theorem dropFirstUnprotected_mem_of_protected {ps : ProtectedSet} {p : PeerID}
    (hp : p ∈ ps) :
    ∀ {peers peers1 : List PeerID}, dropFirstUnprotected ps peers = some peers1 →
      p ∈ peers → p ∈ peers1 := by
  intro peers
  induction peers with
  | nil => intro peers1 h; simp [dropFirstUnprotected] at h
  | cons q rest ih =>
    intro peers1 h hmem
    by_cases hq : q ∈ ps
    · simp only [dropFirstUnprotected, if_pos hq, Option.map_eq_some'] at h
      obtain ⟨rest1, hrest1, hE⟩ := h
      subst hE
      rcases List.mem_cons.mp hmem with hpq | hrest
      · rw [hpq]; exact List.mem_cons_self q rest1
      · exact List.mem_cons_of_mem q (ih hrest1 hrest)
    · simp only [dropFirstUnprotected, if_neg hq, Option.some.injEq] at h
      subst h
      rcases List.mem_cons.mp hmem with hpq | hrest
      · exact absurd (hpq ▸ hp) hq
      · exact hrest

theorem bucketInsert_preserves_protected {ps : ProtectedSet} {p : PeerID}
    (hp : p ∈ ps) (cap : Nat) (peers : List PeerID) (q : PeerID)
    (hmem : p ∈ peers) : p ∈ bucketInsert ps cap peers q := by
  unfold bucketInsert
  by_cases hq : q ∈ peers
  · simp only [if_pos hq]
    by_cases hpq : p = q
    · exact List.mem_append_right _ (by simp [hpq])
    · exact List.mem_append_left _ ((List.mem_erase_of_ne hpq).mpr hmem)
  · simp only [if_neg hq]
    by_cases hlen : peers.length < cap
    · simp only [if_pos hlen]
      exact List.mem_append_left _ hmem
    · simp only [if_neg hlen]
      cases hdrop : dropFirstUnprotected ps peers with
      | none => exact hmem
      | some peers1 =>
        exact List.mem_append_left _
          (dropFirstUnprotected_mem_of_protected hp hdrop hmem)

/-- C2: a peer in the protected set is never evicted from the DHT routing
table or the connection cache by capacity pressure: along any sequence of
insertions (however far beyond capacity the structures are pushed with
other peers), a protected peer already resident stays resident; it can
leave only via explicit removal. -/
theorem protected_peer_never_evicted (ps : ProtectedSet) (cap : Nat)
    (table cache qs : List PeerID) (p : PeerID)
    (hp : p ∈ ps) (htable : p ∈ table) (hcache : p ∈ cache) :
    p ∈ qs.foldl (routingTableInsert ps cap) table ∧
    p ∈ qs.foldl (connectionCacheInsert ps cap) cache := by
  constructor
  · induction qs generalizing table with
    | nil => exact htable
    | cons q rest ih =>
      exact ih (bucketInsert ps cap table q)
        (bucketInsert_preserves_protected hp cap table q htable)
  · induction qs generalizing cache with
    | nil => exact hcache
    | cons q rest ih =>
      exact ih (bucketInsert ps cap cache q)
        (bucketInsert_preserves_protected hp cap cache q hcache)

/-- Witness for C2 at a concrete input: protected peer 7 survives ten
insertions of unprotected peers into capacity-2 structures. -/
theorem protected_peer_never_evicted_witness :
    7 ∈ [7] ∧ 7 ∈ [7, 1] ∧ 7 ∈ [7] ∧
    7 ∈ List.foldl (routingTableInsert [7] 2) [7, 1]
        [10, 11, 12, 13, 14, 15, 16, 17, 18, 19] ∧
    7 ∈ List.foldl (connectionCacheInsert [7] 2) [7]
        [10, 11, 12, 13, 14, 15, 16, 17, 18, 19] := by
  have h := protected_peer_never_evicted [7] 2 [7, 1] [7]
    [10, 11, 12, 13, 14, 15, 16, 17, 18, 19] 7
    (by decide) (by decide) (by decide)
  exact ⟨by decide, by decide, by decide, h.1, h.2⟩

/- ## Auto-reconnect (header: EnableAutoReconnect, DisableAutoReconnect,
     GetReconnectAttempts) -/

/-- Modelled from the spec: the base reconnect interval (time units). -/
def baseInterval : Nat := 1

/-- Modelled from the spec: the maximum (capped) reconnect interval. -/
def maxInterval : Nat := 60

/-- Modelled from the spec: per-peer auto-reconnect state kept by the
Protected Peer Registry — the attempt counter, from which the current
exponential backoff interval is derived.  Jitter is applied on top of the
deterministic interval by the implementation; the backoff interval the
spec speaks about is the capped exponential one modelled here. -/
structure ReconnectState where
  attempts : Nat
deriving DecidableEq, Repr

/-- Modelled from the spec: exponential backoff capped at the maximum
interval. -/
def backoffInterval (st : ReconnectState) : Nat :=
  min (baseInterval * 2 ^ st.attempts) maxInterval

/-- Modelled from the spec: one reconnect attempt issued by the
reconciliation loop increments the peer's attempt counter. -/
def reconnectAttempt (st : ReconnectState) : ReconnectState :=
  ⟨st.attempts + 1⟩

/-- Modelled from the spec: a successful connection resets the attempt
counter to zero (and hence the backoff to the base interval). -/
def reconnectSuccess (_st : ReconnectState) : ReconnectState :=
  ⟨0⟩

/-- Modelled from the spec: `GetReconnectAttempts` reports the peer's
current attempt counter. -/
def GetReconnectAttempts (st : ReconnectState) : Nat :=
  st.attempts

/-- C4: along the auto-reconnect loop, the backoff interval is monotone
non-decreasing from attempt to attempt and never exceeds the cap, each
attempt increments the peer's counter as observed by
`GetReconnectAttempts`, and a successful connection resets the counter to
zero and the backoff to the base interval. -/
theorem reconnect_backoff_monotone_capped_reset (st : ReconnectState) :
    backoffInterval st ≤ backoffInterval (reconnectAttempt st) ∧
    backoffInterval (reconnectAttempt st) ≤ maxInterval ∧
    GetReconnectAttempts (reconnectAttempt st) = GetReconnectAttempts st + 1 ∧
    GetReconnectAttempts (reconnectSuccess st) = 0 ∧
    backoffInterval (reconnectSuccess st) = baseInterval := by
  refine ⟨?_, ?_, rfl, rfl, rfl⟩
  · have hpow : 2 ^ st.attempts ≤ 2 ^ (st.attempts + 1) :=
      Nat.pow_le_pow_right (by norm_num) (Nat.le_succ _)
    exact min_le_min (by simpa [baseInterval] using hpow) le_rfl
  · exact min_le_right _ _

/- ## Event Bus (header: GetNextEvent) -/

/-- Modelled from the spec: the tagged variant of asynchronous
occurrences. -/
inductive EventKind
  | PeerConnected
  | PeerDisconnected
  | MessageReceived
  | ProviderFound
  | ReconnectAttempted
  | ErrorEvent
deriving DecidableEq, Repr

/-- Modelled from the spec: an immutable event, tagged with the producer
component that emitted it. -/
structure Event where
  producer : Nat
  kind : EventKind
  payload : List Nat
deriving DecidableEq, Repr

/-- Modelled from the spec: the single multiple-producer/single-consumer
queue, strictly ordered, unbounded (never dropping events). -/
structure EventBus where
  queue : List Event
deriving DecidableEq, Repr

/-- Modelled from the spec: a producer enqueues an event at the tail. -/
def enqueueEvent (b : EventBus) (e : Event) : EventBus :=
  ⟨b.queue ++ [e]⟩

/-- Modelled from the spec: `GetNextEvent` hands the single consumer the
event at the head of the queue, or nothing when the queue is empty. -/
def GetNextEvent (b : EventBus) : Option (Event × EventBus) :=
  match b.queue with
  | [] => none
  | e :: rest => some (e, ⟨rest⟩)

/-- Draining the bus by repeatedly calling `GetNextEvent`, with explicit
fuel for termination. -/
def drainFuel : Nat → EventBus → List Event
  | 0, _ => []
  | n + 1, b =>
    match GetNextEvent b with
    | none => []
    | some (e, b1) => e :: drainFuel n b1

/-- The sequence of events the single consumer observes when it drains the
bus to empty via `GetNextEvent`. -/
def drainAll (b : EventBus) : List Event :=
  drainFuel b.queue.length b

theorem drainFuel_eq_queue (n : Nat) (b : EventBus) (h : b.queue.length ≤ n) :
    drainFuel n b = b.queue := by
  induction n generalizing b with
  | zero =>
    have : b.queue = [] := List.eq_nil_of_length_eq_zero (Nat.le_zero.mp h)
    simp [drainFuel, this]
  | succ n ih =>
    cases hq : b.queue with
    | nil => simp [drainFuel, GetNextEvent, hq]
    | cons e rest =>
      have hlen : rest.length ≤ n := by
        have := h
        rw [hq] at this
        simpa using Nat.lt_succ_iff.mp (Nat.lt_of_lt_of_le (Nat.lt_succ_self _) this)
      simp [drainFuel, GetNextEvent, hq, ih ⟨rest⟩ hlen]

theorem foldl_enqueue_queue (b : EventBus) (es : List Event) :
    (List.foldl enqueueEvent b es).queue = b.queue ++ es := by
  induction es generalizing b with
  | nil => simp
  | cons e rest ih =>
    simp [List.foldl_cons, ih, enqueueEvent]

/-- C6: the consumer draining the bus via `GetNextEvent` observes exactly
the enqueued events in enqueue (FIFO) order — so two events emitted by the
same producer, with the first enqueued first, are observed in that order
regardless of interleaving with other producers, and no enqueued event is
ever dropped. -/
theorem eventBus_fifo_no_event_dropped (b : EventBus) (es : List Event) :
    drainAll (List.foldl enqueueEvent b es) = b.queue ++ es ∧
    ∀ p : Nat,
      (drainAll (List.foldl enqueueEvent b es)).filter
          (fun e => e.producer == p) =
        (b.queue ++ es).filter (fun e => e.producer == p) := by
  have h : drainAll (List.foldl enqueueEvent b es) = b.queue ++ es := by
    unfold drainAll
    rw [drainFuel_eq_queue _ _ le_rfl, foldl_enqueue_queue]
  exact ⟨h, fun p => by rw [h]⟩

/- ## Messaging Service (header: SendDataToPeer, GetChatHistory,
     GetChatHistoryLimit) -/

/-- Modelled from the spec: a chat message, appended immutably to a
per-peer ordered history. -/
structure ChatMessage where
  sender : PeerID
  recipient : PeerID
  payload : List Nat
  timestamp : Nat
  delivered : Bool
deriving DecidableEq, Repr

namespace Messaging

/-- Modelled from the spec: the messaging-relevant state of one engine
node — its own identifier, the set of currently connected peers, and the
per-peer ordered message history. -/
structure Node where
  pid : PeerID
  connected : List PeerID
  hist : PeerID → List ChatMessage

/-- Append a message to the per-peer history of `p`. -/
def appendHist (n : Node) (p : PeerID) (m : ChatMessage) : Node :=
  ⟨n.pid, n.connected, fun q => if q = p then n.hist p ++ [m] else n.hist q⟩

/-- Modelled from the spec: `SendDataToPeer` fails with NotConnected when
the target is not connected; otherwise it appends the outbound message
(pending, not yet delivered) to the sender's per-peer log and hands the
message to the transport. -/
def SendDataToPeer (s : Node) (q : PeerID) (payload : List Nat) (t : Nat) :
    Option (Node × ChatMessage) :=
  if q ∈ s.connected then
    let m : ChatMessage := ⟨s.pid, q, payload, t, false⟩
    some (appendHist s q m, m)
  else none

/-- Modelled from the spec: an inbound message is appended to the
sender's history on the receiving node in arrival order. -/
def receiveMessage (r : Node) (m : ChatMessage) : Node :=
  appendHist r m.sender ⟨m.sender, m.recipient, m.payload, m.timestamp, true⟩

/-- Mark the copy of `m` in an outbound log as delivered. -/
def markDelivered (ms : List ChatMessage) (m : ChatMessage) : List ChatMessage :=
  ms.map (fun x => if x = m then
    ⟨x.sender, x.recipient, x.payload, x.timestamp, true⟩ else x)

/-- Modelled from the spec: on delivery the sender's own pending outbound
copy is marked delivered. -/
def confirmDelivered (s : Node) (q : PeerID) (m : ChatMessage) : Node :=
  ⟨s.pid, s.connected, fun x => if x = q then markDelivered (s.hist q) m
    else s.hist x⟩

/-- Modelled from the spec: the whole round trip of one message — send,
receipt on the peer, delivery confirmation on the sender. -/
def roundTrip (s r : Node) (payload : List Nat) (t : Nat) :
    Option (Node × Node) :=
  match SendDataToPeer s r.pid payload t with
  | none => none
  | some (s1, m) => some (confirmDelivered s1 r.pid m, receiveMessage r m)

end Messaging

/-- C5: when `SendDataToPeer` succeeds towards a connected peer and the
message is received, the recipient's history for the sender contains a
message with the sent payload and sender identifier, and the sender's own
outbound log for the recipient contains the same message marked
delivered. -/
theorem sendDataToPeer_roundTrip (s r : Messaging.Node) (payload : List Nat)
    (t : Nat) (hconn : r.pid ∈ s.connected) :
    ∃ s1 r1 : Messaging.Node,
      Messaging.roundTrip s r payload t = some (s1, r1) ∧
      (∃ m ∈ r1.hist s.pid, m.payload = payload ∧ m.sender = s.pid) ∧
      (∃ m ∈ s1.hist r.pid, m.payload = payload ∧ m.sender = s.pid ∧
        m.delivered = true) := by
  classical
  refine ⟨Messaging.confirmDelivered
      (Messaging.appendHist s r.pid ⟨s.pid, r.pid, payload, t, false⟩) r.pid
      ⟨s.pid, r.pid, payload, t, false⟩,
    Messaging.receiveMessage r ⟨s.pid, r.pid, payload, t, false⟩,
    by simp [Messaging.roundTrip, Messaging.SendDataToPeer, hconn], ?_, ?_⟩
  · refine ⟨⟨s.pid, r.pid, payload, t, true⟩, ?_, rfl, rfl⟩
    simp [Messaging.receiveMessage, Messaging.appendHist]
  · refine ⟨⟨s.pid, r.pid, payload, t, true⟩, ?_, rfl, rfl, rfl⟩
    simp only [Messaging.confirmDelivered, if_pos rfl, Messaging.markDelivered,
      Messaging.appendHist]
    refine List.mem_map.mpr ⟨⟨s.pid, r.pid, payload, t, false⟩, ?_, by simp⟩
    simp

/-- Witness for C5 at a concrete input: node 1 is connected to node 2 and
sends payload [42]. -/
theorem sendDataToPeer_roundTrip_witness :
    (2 : Nat) ∈ [2] ∧
    (∃ s1 r1 : Messaging.Node,
      Messaging.roundTrip ⟨1, [2], fun _ => []⟩ ⟨2, [1], fun _ => []⟩ [42] 0 =
        some (s1, r1) ∧
      (∃ m ∈ r1.hist 1, m.payload = [42] ∧ m.sender = 1) ∧
      (∃ m ∈ s1.hist 2, m.payload = [42] ∧ m.sender = 1 ∧
        m.delivered = true)) :=
  ⟨by decide, sendDataToPeer_roundTrip ⟨1, [2], fun _ => []⟩ ⟨2, [1], fun _ => []⟩
    [42] 0 (by decide)⟩

/-- Modelled from the spec: `GetChatHistoryLimit` returns the most recent
`limit` messages of the per-peer history in chronological order, never
truncating outbound messages (sent by `self`) that have not yet been
delivered: pending outbound messages from the truncated prefix are kept,
in order, ahead of the recent window. -/
def GetChatHistoryLimit (self : PeerID) (hist : List ChatMessage)
    (limit : Nat) : List ChatMessage :=
  (hist.take (hist.length - limit)).filter
      (fun m => m.sender == self && !m.delivered)
    ++ hist.drop (hist.length - limit)

/-- Modelled from the spec: `GetChatHistory` returns the full per-peer
history in chronological order. -/
def GetChatHistory (hist : List ChatMessage) : List ChatMessage :=
  hist

/-- C7: `GetChatHistoryLimit` preserves chronological order (its result is
a sublist of the history), never truncates an outbound message that is not
yet delivered, and — whenever the truncated prefix holds no pending
outbound message, in particular when all messages are delivered — returns
exactly the most recent `min limit n` messages. -/
theorem getChatHistoryLimit_spec (self : PeerID) (hist : List ChatMessage)
    (k : Nat) :
    List.Sublist (GetChatHistoryLimit self hist k) hist ∧
    (∀ m ∈ hist, m.sender = self → m.delivered = false →
      m ∈ GetChatHistoryLimit self hist k) ∧
    ((∀ m ∈ hist, m.delivered = true) →
      GetChatHistoryLimit self hist k = hist.drop (hist.length - k) ∧
      (GetChatHistoryLimit self hist k).length = min k hist.length) := by
  refine ⟨?_, ?_, ?_⟩
  · have hs : List.Sublist
        ((hist.take (hist.length - k)).filter
            (fun m => m.sender == self && !m.delivered)
          ++ hist.drop (hist.length - k))
        (hist.take (hist.length - k) ++ hist.drop (hist.length - k)) :=
      List.Sublist.append (List.filter_sublist _) (List.Sublist.refl _)
    simpa [GetChatHistoryLimit, List.take_append_drop] using hs
  · intro m hm hsender hdel
    have hm2 : m ∈ hist.take (hist.length - k) ++ hist.drop (hist.length - k) := by
      rw [List.take_append_drop]; exact hm
    rcases List.mem_append.mp hm2 with hpre | hpost
    · exact List.mem_append_left _
        (List.mem_filter.mpr ⟨hpre, by simp [hsender, hdel]⟩)
    · exact List.mem_append_right _ hpost
  · intro hall
    have hfil : (hist.take (hist.length - k)).filter
        (fun m => m.sender == self && !m.delivered) = [] := by
      refine List.filter_eq_nil_iff.mpr ?_
      intro m hm
      have : m.delivered = true :=
        hall m (List.mem_of_mem_take hm)
      simp [this]
    constructor
    · simp [GetChatHistoryLimit, hfil]
    · simp only [GetChatHistoryLimit, hfil, List.nil_append, List.length_drop]
      omega

/-- Witness for C7 at a concrete input: a history of three messages, one
of them a pending outbound message, with limit 1. -/
theorem getChatHistoryLimit_spec_witness :
    List.Sublist
      (GetChatHistoryLimit 1
        [⟨1, 2, [10], 0, false⟩, ⟨2, 1, [11], 1, true⟩, ⟨1, 2, [12], 2, true⟩]
        1)
      [⟨1, 2, [10], 0, false⟩, ⟨2, 1, [11], 1, true⟩, ⟨1, 2, [12], 2, true⟩] ∧
    (⟨1, 2, [10], 0, false⟩ : ChatMessage) ∈ GetChatHistoryLimit 1
        [⟨1, 2, [10], 0, false⟩, ⟨2, 1, [11], 1, true⟩, ⟨1, 2, [12], 2, true⟩]
        1 ∧
    GetChatHistoryLimit 1 [⟨2, 1, [11], 1, true⟩, ⟨1, 2, [12], 2, true⟩] 1 =
      [⟨1, 2, [12], 2, true⟩] := by
  have h1 := getChatHistoryLimit_spec 1
    [⟨1, 2, [10], 0, false⟩, ⟨2, 1, [11], 1, true⟩, ⟨1, 2, [12], 2, true⟩] 1
  have h2 := getChatHistoryLimit_spec 1
    [⟨2, 1, [11], 1, true⟩, ⟨1, 2, [12], 2, true⟩] 1
  refine ⟨h1.1, ?_, ?_⟩
  · exact h1.2.1 _ (by decide) rfl rfl
  · have := (h2.2.2 (by decide)).1
    simpa using this

/- ## Engine Facade lifecycle (header: StartOwlWhisper,
     StartOwlWhisperWithKey, StopOwlWhisper, SendDataToPeer, ConnectToPeer) -/

/-- Modelled from the spec: the error taxonomy of the core. -/
inductive EngineError
  | InvalidKeyMaterial
  | Unreachable
  | AuthFailed
  | Timeout
  | NotConnected
  | NotFound
  | NoRoute
  | EncryptionFailure
  | AlreadyStarted
  | NotStarted
deriving DecidableEq, Repr

/-- Modelled from the spec: the facade-level engine state — started flag,
identity (once loaded or generated), protected set and connected peers. -/
structure Engine where
  started : Bool
  identity : Option KeyPair
  protectedPeers : ProtectedSet
  connectedPeers : List PeerID
deriving DecidableEq, Repr

/-- Modelled from the spec: expected length of externally supplied key
bytes (serialised keypair). -/
def expectedKeyLength : Nat := 64

/-- Modelled from the spec: validation of externally supplied key bytes —
the length must match and every value must be a byte (the curve/format
check on the decoded material). -/
def validKeyBytes (bytes : List Nat) : Bool :=
  bytes.length == expectedKeyLength && bytes.all (fun b => b < 256)

/-- Modelled from the spec: decoding a validated serialised keypair. -/
def keyPairOfBytes (bytes : List Nat) : KeyPair :=
  ⟨bytes.take 32, bytes.drop 32⟩

namespace Lifecycle

/-- Modelled from the spec: `StartOwlWhisper` fails with AlreadyStarted on
a running engine and otherwise starts it with a freshly generated
identity (the generated keypair is passed in explicitly, standing for the
cryptographically secure random source).  An error outcome carries no
successor state: the pre-call engine state is unchanged. -/
def StartOwlWhisper (e : Engine) (fresh : KeyPair) : Except EngineError Engine :=
  if e.started then .error .AlreadyStarted
  else .ok ⟨true, some fresh, e.protectedPeers, e.connectedPeers⟩

/-- Modelled from the spec: `StartOwlWhisperWithKey` fails with
AlreadyStarted on a running engine, validates the supplied key bytes and
fails with InvalidKeyMaterial — never falling back to generating a fresh
identity — when validation fails; only valid bytes start the engine. -/
def StartOwlWhisperWithKey (e : Engine) (bytes : List Nat) :
    Except EngineError Engine :=
  if e.started then .error .AlreadyStarted
  else if validKeyBytes bytes then
    .ok ⟨true, some (keyPairOfBytes bytes), e.protectedPeers, e.connectedPeers⟩
  else .error .InvalidKeyMaterial

/-- Modelled from the spec: the facade-level guard of `SendDataToPeer` —
NotStarted before start, NotConnected towards a non-connected peer,
otherwise the payload is handed to the Messaging Service. -/
def SendDataToPeer (e : Engine) (q : PeerID) (_data : List Nat) :
    Except EngineError Engine :=
  if !e.started then .error .NotStarted
  else if q ∈ e.connectedPeers then .ok e
  else .error .NotConnected

/-- Modelled from the spec: the facade-level guard of `ConnectToPeer` —
NotStarted before start, otherwise a connection attempt is made. -/
def ConnectToPeer (e : Engine) (q : PeerID) : Except EngineError Engine :=
  if !e.started then .error .NotStarted
  else .ok ⟨e.started, e.identity, e.protectedPeers,
    if q ∈ e.connectedPeers then e.connectedPeers else e.connectedPeers ++ [q]⟩

end Lifecycle

/-- C8: starting an already-started engine reports AlreadyStarted, and
invoking peer or messaging operations before start reports NotStarted; in
each case the call returns an error result (never an ok state, so the
engine state is unchanged — an error outcome carries no successor
state). -/
theorem lifecycle_alreadyStarted_notStarted (e : Engine) (kp : KeyPair)
    (q : PeerID) (data : List Nat) :
    (e.started = true →
      Lifecycle.StartOwlWhisper e kp = .error .AlreadyStarted) ∧
    (e.started = false →
      Lifecycle.SendDataToPeer e q data = .error .NotStarted ∧
      Lifecycle.ConnectToPeer e q = .error .NotStarted) := by
  constructor
  · intro h
    simp [Lifecycle.StartOwlWhisper, h]
  · intro h
    exact ⟨by simp [Lifecycle.SendDataToPeer, h],
      by simp [Lifecycle.ConnectToPeer, h]⟩

/-- Witness for C8 at concrete inputs: a started engine rejects a second
start, a stopped engine rejects send and connect. -/
theorem lifecycle_alreadyStarted_notStarted_witness :
    (Engine.mk true none [] []).started = true ∧
    (Engine.mk false none [] []).started = false ∧
    Lifecycle.StartOwlWhisper ⟨true, none, [], []⟩ ⟨[1], [2]⟩ =
      .error .AlreadyStarted ∧
    Lifecycle.SendDataToPeer ⟨false, none, [], []⟩ 3 [4] =
      .error .NotStarted ∧
    Lifecycle.ConnectToPeer ⟨false, none, [], []⟩ 3 = .error .NotStarted := by
  have h1 := lifecycle_alreadyStarted_notStarted ⟨true, none, [], []⟩ ⟨[1], [2]⟩ 3 [4]
  have h2 := lifecycle_alreadyStarted_notStarted ⟨false, none, [], []⟩ ⟨[1], [2]⟩ 3 [4]
  have h2c := h2.2 rfl
  exact ⟨rfl, rfl, h1.1 rfl, h2c.1, h2c.2⟩

/-- C9: on a not-yet-started engine, any byte sequence failing key
validation makes `StartOwlWhisperWithKey` report InvalidKeyMaterial; the
engine does not start and in particular never falls back to a fresh
identity — no ok outcome is possible, so the pre-call state is
unchanged. -/
theorem startWithKey_invalid_key_material (e : Engine) (bytes : List Nat)
    (hstart : e.started = false) (hbad : validKeyBytes bytes = false) :
    Lifecycle.StartOwlWhisperWithKey e bytes = .error .InvalidKeyMaterial ∧
    ∀ e1 : Engine, Lifecycle.StartOwlWhisperWithKey e bytes ≠ .ok e1 := by
  have h : Lifecycle.StartOwlWhisperWithKey e bytes =
      .error .InvalidKeyMaterial := by
    simp [Lifecycle.StartOwlWhisperWithKey, hstart, hbad]
  exact ⟨h, fun e1 hok => by rw [h] at hok; exact Except.noConfusion hok⟩

/-- Witness for C9 at a concrete input: three bytes are too short to be a
serialised keypair. -/
theorem startWithKey_invalid_key_material_witness :
    (Engine.mk false none [] []).started = false ∧
    validKeyBytes [1, 2, 3] = false ∧
    Lifecycle.StartOwlWhisperWithKey ⟨false, none, [], []⟩ [1, 2, 3] =
      .error .InvalidKeyMaterial ∧
    ∀ e1 : Engine,
      Lifecycle.StartOwlWhisperWithKey ⟨false, none, [], []⟩ [1, 2, 3] ≠
        .ok e1 := by
  have h := startWithKey_invalid_key_material ⟨false, none, [], []⟩ [1, 2, 3]
    rfl (by decide)
  exact ⟨rfl, by decide, h.1, h.2⟩

/-- C1: for every keypair, the peer identifier returned by `GetMyPeerID` is
a deterministic function of the public key — equal public keys always give
equal identifiers and distinct public keys give distinct identifiers. -/
theorem getMyPeerID_deterministic_and_injective (kp1 kp2 : KeyPair) :
    GetMyPeerID kp1 = GetMyPeerID kp2 ↔ kp1.publicKey = kp2.publicKey := by
  constructor
  · exact fun h => hashPubKey_injective h
  · intro h
    unfold GetMyPeerID
    rw [h]

/-- C3: adding a protected peer twice yields the same protected set as
adding it once (single membership), and removing a non-member leaves the
set unchanged and succeeds rather than reporting an error. -/
theorem addProtected_idem_removeProtected_noop (ps : ProtectedSet) (p : PeerID) :
    AddProtectedPeer (AddProtectedPeer ps p) p = AddProtectedPeer ps p ∧
    (p ∉ ps → RemoveProtectedPeer ps p = (true, ps)) := by
  constructor
  · by_cases h : p ∈ ps
    · simp [AddProtectedPeer, h]
    · simp [AddProtectedPeer, h]
  · intro h
    simp [RemoveProtectedPeer, List.erase_of_not_mem h]

/-- Witness for C3 at a concrete input: peer 5 is not in the set [1, 2]. -/
theorem addProtected_idem_removeProtected_noop_witness :
    AddProtectedPeer (AddProtectedPeer [1, 2] 5) 5 = AddProtectedPeer [1, 2] 5 ∧
    RemoveProtectedPeer [1, 2] 5 = (true, [1, 2]) := by
  have h := addProtected_idem_removeProtected_noop [1, 2] 5
  exact ⟨h.1, h.2 (by decide)⟩

/-- C10: `IsProtectedPeer` and `GetProtectedPeers` are mutually consistent
views of the single protected set: `IsProtectedPeer ps p` is true exactly
when `p` is a member of the serialised set `GetProtectedPeers ps`. -/
theorem isProtected_iff_mem_getProtected (ps : ProtectedSet) (p : PeerID) :
    IsProtectedPeer ps p = true ↔ p ∈ GetProtectedPeers ps := by
  simp [IsProtectedPeer, GetProtectedPeers]

end OwlWhisper
